import Mathlib

/-!
Shallow embedding of the CryptoBuddy signal-computation engine
(`precision-heatmap-atr-OI-v2.js`) over exact rational arithmetic,
together with theorems checking the natural-language specification
against it.

JavaScript numeric conventions used throughout the embedding:
* finite JS numbers are modelled as rationals (`ℚ`); a possibly
  non-finite or missing value (`NaN`, `undefined`, `null`) is an
  `Option ℚ` with `none` for the non-numeric case;
* `Math.round` rounds half toward positive infinity (`jsRound`);
* `Math.max`/`Math.min` are `max`/`min`;
* the one transcendental primitive the engine uses, `Math.log10`,
  is taken as an explicit function parameter of the conviction
  engine, so every theorem about it holds for an arbitrary
  interpretation of that primitive.
-/

namespace CryptoBuddy

/-- JS `Math.round`: rounds half toward positive infinity. -/
def jsRound (q : ℚ) : ℤ := ⌊q + 1/2⌋

/- Tunables, from the top of `precision-heatmap-atr-OI-v2.js`. -/

def COVERAGE : ℚ := 9/10

def MIN_STRENGTH : ℚ := 3/100

def DIST_MULTIPLIER : ℚ := 6

def LIQ_THRESHOLD_FRAC : ℚ := 1/10

def LIQ_MAX_LOOKUP_FRAC : ℚ := 1/2

def CVD_BIAS_MAX : ℚ := 8

def LCI_BIAS_MAX : ℚ := 5

def MELA_BIAS_MAX : ℚ := 5

def MOMENTUM_BIAS_MAX : ℚ := 15/2

def REGIME_CVD_THRESHOLD : ℚ := 40

def REGIME_CAC_THRESHOLD : ℚ := -1

def SUPPRESSION_BUY_SCORE_CAP : ℤ := 55

def PROXIMITY_INFLUENCE_MAX : ℚ := 10

def DEAD_BAND_THRESHOLD : ℚ := 12

/-- A price level with its USD notional (`{ price, usd }` objects). -/
structure PriceLevel where
  price : ℚ
  usd : ℚ
  deriving DecidableEq, Repr

/-- A liquidity cluster bucket (`{ low, high, usd, count }` objects). -/
structure Cluster where
  low : ℚ
  high : ℚ
  usd : ℚ
  count : ℕ
  deriving DecidableEq, Repr

/-- Result of `extractPOI` (`{ total, target, poi }`). -/
structure POI where
  total : ℚ
  target : ℚ
  poi : List Cluster
  deriving DecidableEq, Repr

/-- One candle bar; the source field `open` is a Lean keyword, rendered
`openP` here. -/
structure Candle where
  openP : ℚ
  high : ℚ
  low : ℚ
  close : ℚ
  volume : ℚ
  deriving DecidableEq, Repr

/- -------------------------------------------------------------
   DEPTH MERGE: aggregatePriceUsd
------------------------------------------------------------- -/

/-- JS `Map.set(price, (map.get(price) || 0) + usd)`: add `v` to the
entry for key `p` of an insertion-ordered association list, appending a
fresh entry when the key is absent. -/
def upsertUsd : List PriceLevel → ℚ → ℚ → List PriceLevel
  | [], p, v => [⟨p, v⟩]
  | l :: ls, p, v =>
      if l.price = p then ⟨l.price, l.usd + v⟩ :: ls
      else l :: upsertUsd ls p v

/-- The loop body of `aggregatePriceUsd`: an entry is skipped when
price or size is non-finite (`none`) or `size <= 0`, otherwise
`price * size` is merged into the USD total for that price. -/
def aggStep (acc : List PriceLevel) (lvl : Option ℚ × Option ℚ) : List PriceLevel :=
  match lvl.1, lvl.2 with
  | some price, some size =>
      if size ≤ 0 then acc else upsertUsd acc price (price * size)
  | _, _ => acc

/-- `aggregatePriceUsd(levels)`: each raw level is a `(price, size)`
pair of JS numbers (`none` = non-finite, failing the `isFinite`
check); the retained entries are folded into an insertion-ordered
price-keyed map. -/
def aggregatePriceUsd (levels : List (Option ℚ × Option ℚ)) : List PriceLevel :=
  levels.foldl aggStep []

/-- The raw entries `aggregatePriceUsd` retains: finite price, finite
size, positive size (used by the theorems to describe the output). -/
def retainedEntries (levels : List (Option ℚ × Option ℚ)) : List (ℚ × ℚ) :=
  levels.filterMap fun lvl =>
    match lvl.1, lvl.2 with
    | some price, some size => if size ≤ 0 then none else some (price, size)
    | _, _ => none

/-- Total notional contributed at price `p` by the retained entries. -/
def notionalAt (levels : List (Option ℚ × Option ℚ)) (p : ℚ) : ℚ :=
  (((retainedEntries levels).filter (fun e => decide (e.1 = p))).map
    (fun e => e.1 * e.2)).sum

/-- Sum of the `usd` fields carried at price `p` by a `PriceLevel` list
(with unique prices this is the single stored value). -/
def usdAt (l : List PriceLevel) (p : ℚ) : ℚ :=
  ((l.filter (fun x => decide (x.price = p))).map (·.usd)).sum

/- -------------------------------------------------------------
   MODE B FILTERING and 90% POI EXTRACTION
------------------------------------------------------------- -/

/-- `applyModerateFilter(clusters, strongestUsd, atr, price)`: keep
clusters whose notional reaches `MIN_STRENGTH` of the strongest and
whose midpoint is within `atr * DIST_MULTIPLIER` of the price. -/
def applyModerateFilter (clusters : List Cluster) (strongestUsd atr price : ℚ) :
    List Cluster :=
  let minUsd := strongestUsd * MIN_STRENGTH
  let maxDist := atr * DIST_MULTIPLIER
  clusters.filter fun c =>
    decide (c.usd ≥ minUsd ∧ |(c.low + c.high) / 2 - price| ≤ maxDist)

/-- The accumulation loop of `extractPOI`: push each cluster, then stop
as soon as the running total reaches the target. -/
def poiLoop (target : ℚ) : ℚ → List Cluster → List Cluster
  | _, [] => []
  | cumulative, c :: rest =>
      let cumulative' := cumulative + c.usd
      if cumulative' ≥ target then [c]
      else c :: poiLoop target cumulative' rest

/-- `extractPOI(clusters, coverage)`. -/
def extractPOI (clusters : List Cluster) (coverage : ℚ) : POI :=
  let total := (clusters.map (·.usd)).sum
  let target := total * coverage
  ⟨total, target, poiLoop target 0 clusters⟩

/-- The cluster-handling slice of `runForSymbol` (lines 910-927): the
`!bidClusters.length || !askClusters.length` hard failure (which exits
the process) is checked on the raw cluster lists, then the moderate
filter is applied and POIs extracted from the filtered lists. -/
def clusterStage : List Cluster → List Cluster → ℚ → ℚ →
    Except String (POI × POI)
  | [], _, _, _ => Except.error "No cluster data available."
  | _ :: _, [], _, _ => Except.error "No cluster data available."
  | b₀ :: bs, a₀ :: as', atr, price =>
      let bidFiltered := applyModerateFilter (b₀ :: bs) b₀.usd atr price
      let askFiltered := applyModerateFilter (a₀ :: as') a₀.usd atr price
      Except.ok (extractPOI bidFiltered COVERAGE, extractPOI askFiltered COVERAGE)

/- -------------------------------------------------------------
   ADVANCED LIQUIDATION ENGINE (A2)
------------------------------------------------------------- -/

/-- Insert into a list kept in descending price order. -/
def insertDescPrice (x : PriceLevel) : List PriceLevel → List PriceLevel
  | [] => [x]
  | y :: ys => if x.price ≥ y.price then x :: y :: ys else y :: insertDescPrice x ys

/-- JS `sort((a, b) => b.price - a.price)`: descending by price. -/
def sortDescPrice : List PriceLevel → List PriceLevel
  | [] => []
  | x :: xs => insertDescPrice x (sortDescPrice xs)

/-- Insert into a list kept in ascending price order. -/
def insertAscPrice (x : PriceLevel) : List PriceLevel → List PriceLevel
  | [] => [x]
  | y :: ys => if x.price ≤ y.price then x :: y :: ys else y :: insertAscPrice x ys

/-- JS `sort((a, b) => a.price - b.price)`: ascending by price. -/
def sortAscPrice : List PriceLevel → List PriceLevel
  | [] => []
  | x :: xs => insertAscPrice x (sortAscPrice xs)

/-- `buildCumulativeLadder(sideArr)`: the side levels sorted ascending. -/
def buildCumulativeLadder (sideArr : List PriceLevel) : List PriceLevel :=
  sortAscPrice sideArr

/-- A located liquidation zone
(`{ price, accum, dist, thresholdHit }`). -/
structure LiqZone where
  price : ℚ
  accum : ℚ
  dist : ℚ
  thresholdHit : ℚ
  deriving DecidableEq, Repr

/-- One accumulation walk of `findNearestLiquidationPriceSide`: add each
level's notional, and return the first level whose distance is within
`maxReach` with the accumulated notional at or above `target`.  (The
source writes the distance as `currentPrice - lvl.price` on the bid side
and `lvl.price - currentPrice` on the ask side; both sit under
`Math.abs`, so the two walks are the same function of the walked list.) -/
def liqWalk (maxReach target currentPrice : ℚ) : ℚ → List PriceLevel → Option LiqZone
  | _, [] => none
  | cumulative, lvl :: rest =>
      let cumulative' := cumulative + lvl.usd
      let dist := |currentPrice - lvl.price|
      if dist ≤ maxReach ∧ cumulative' ≥ target then
        some ⟨lvl.price, cumulative', dist, target⟩
      else liqWalk maxReach target currentPrice cumulative' rest

/-- The list a side's walk traverses: bid side keeps levels strictly
below the current price sorted descending (nearest first), ask side
keeps levels strictly above sorted ascending. -/
def liqCandidates (ladderAsc : List PriceLevel) (currentPrice : ℚ)
    (side : String) : List PriceLevel :=
  if side = "bid" then
    sortDescPrice (ladderAsc.filter fun p => decide (p.price < currentPrice))
  else
    sortAscPrice (ladderAsc.filter fun p => decide (p.price > currentPrice))

/-- `findNearestLiquidationPriceSide`: walk once with the low threshold
(`LIQ_THRESHOLD_FRAC`), and if that fails walk again with the high
threshold (`LIQ_MAX_LOOKUP_FRAC`); `none` when both walks fail. -/
def findNearestLiquidationPriceSide (ladderAsc : List PriceLevel)
    (currentPrice : ℚ) (side : String) (sideTotal atr : ℚ) : Option LiqZone :=
  let maxReach := atr * DIST_MULTIPLIER
  let target1 := sideTotal * LIQ_THRESHOLD_FRAC
  let target2 := sideTotal * LIQ_MAX_LOOKUP_FRAC
  let cands := liqCandidates ladderAsc currentPrice side
  match liqWalk maxReach target1 currentPrice 0 cands with
  | some z => some z
  | none => liqWalk maxReach target2 currentPrice 0 cands

/- -------------------------------------------------------------
   RSI / EMA / MACD / MOMENTUM LAYER
------------------------------------------------------------- -/

/-- `computeRSI(klines, period)`: Wilder-style gain/loss averaging over
the last `period` close-to-close moves; `none` when the history is
shorter than `period + 1` bars. -/
def computeRSI (klines : List Candle) (period : ℕ) : Option ℚ :=
  if klines.length < period + 1 then none
  else
    let closes := klines.map (·.close)
    let diffs := (closes.zip closes.tail).map fun p => p.2 - p.1
    let gains := diffs.map fun d => max 0 d
    let losses := diffs.map fun d => max 0 (-d)
    let lastGains := gains.drop (gains.length - period)
    let lastLosses := losses.drop (losses.length - period)
    let avgGain := lastGains.sum / (period : ℚ)
    let avgLoss := lastLosses.sum / (period : ℚ)
    if avgLoss = 0 ∧ avgGain = 0 then some 50
    else if avgLoss = 0 then some 100
    else
      let rs := avgGain / avgLoss
      let rsi := 100 - 100 / (1 + rs)
      some (max 0 (min 100 rsi))

/-- The EMA recurrence `prev = v * k + prev * (1 - k)` over a value
list, emitting each updated value. -/
def emaRun (k : ℚ) : ℚ → List ℚ → List ℚ
  | _, [] => []
  | prev, v :: rest =>
      let next := v * k + prev * (1 - k)
      next :: emaRun k next rest

/-- `ema(values, period)`: `[]` when too short; otherwise `none` for the
first `period - 1` slots, the seed (plain average of the first `period`
values) at slot `period - 1`, and the EMA recurrence afterwards. -/
def ema (values : List ℚ) (period : ℕ) : List (Option ℚ) :=
  if values.length < period then []
  else
    let k := 2 / ((period : ℚ) + 1)
    let seed := (values.take period).sum / (period : ℚ)
    List.replicate (period - 1) none ++ [some seed] ++
      (emaRun k seed (values.drop period)).map some

/-- Result of `computeMACDHistogram`
(`{ macd, signal, hist, avgAbsHist }`). -/
structure MacdResult where
  macd : ℚ
  signal : ℚ
  hist : ℚ
  avgAbsHist : ℚ
  deriving DecidableEq, Repr

/-- `computeMACDHistogram(klines, fast, slow, signalP)`. -/
def computeMACDHistogram (klines : List Candle) (fast slow signalP : ℕ) :
    Option MacdResult :=
  let closes := klines.map (·.close)
  if closes.length < slow + signalP then none
  else
    let emaFast := ema closes fast
    let emaSlow := ema closes slow
    let macdSeries := (emaFast.zip emaSlow).map fun p =>
      match p.1, p.2 with
      | some f, some s => some (f - s)
      | _, _ => none
    let macdClean := macdSeries.map fun x => x.getD 0
    let signalArr := ema macdClean signalP
    let lastIdx := closes.length - 1
    let macd := (macdSeries.getD lastIdx none).getD 0
    let signal := (signalArr.getD lastIdx none).getD 0
    let hist := macd - signal
    let idxs := (List.range closes.length).drop (closes.length - slow)
    let recentHist := idxs.map fun i =>
      |(match macdSeries.getD i none with
        | none => (0 : ℚ)
        | some m => m - (signalArr.getD i none).getD 0)|
    let avgAbsHist :=
      if recentHist.length = 0 then 0 else recentHist.sum / (recentHist.length : ℚ)
    some ⟨macd, signal, hist, avgAbsHist⟩

/-- Result record of `computeMomentumScore`. -/
structure MomentumResult where
  available : Bool
  rsi : Option ℚ
  rsiScore : ℚ
  macdHist : Option ℚ
  macdScore : ℤ
  ma50 : Option ℚ
  ma200 : Option ℚ
  maScore : ℤ
  momentumScore : ℤ
  deriving DecidableEq, Repr

/-- The MACD-score block of `computeMomentumScore` (lines 492-501):
the histogram normalized against `max(avgAbsHist, |hist|, 1e-8)`,
clipped to `[-1, 1]`, mapped around 50 with a 25-point swing and
clamped; paired with the raw histogram value. -/
def macdScorePair : Option MacdResult → ℤ × Option ℚ
  | some m =>
      let avgAbs := m.avgAbsHist
      let denom := max (max avgAbs |m.hist|) (1 / 100000000)
      let scaled := max (-1) (min 1 (m.hist / denom))
      (max 0 (min 100 (jsRound (50 + scaled * 25))), some m.hist)
  | none => (50, none)

/-- The MA50 / MA200 block of `computeMomentumScore` (lines 503-516). -/
def maPairOf (closes : List ℚ) : Option ℚ × Option ℚ :=
  if closes.length ≥ 200 then
    (some ((closes.drop (closes.length - 50)).sum / 50),
     some ((closes.drop (closes.length - 200)).sum / 200))
  else if closes.length ≥ 50 then
    (some ((closes.drop (closes.length - 50)).sum / 50), none)
  else (none, none)

/-- The moving-average crossover score of `computeMomentumScore`
(lines 518-528). -/
def maScoreOf (price : ℚ) : Option ℚ × Option ℚ → ℤ
  | (some m50, some m200) =>
      let base : ℤ := if m50 > m200 then 70 else 30
      let step1 : ℤ := if price > m50 ∧ price > m200 then min 95 (base + 10) else base
      if price < m50 ∧ price < m200 then max 5 (step1 - 10) else step1
  | (some m50, none) => if price > m50 then 60 else 40
  | (none, _) => 50

/-- `computeMomentumScore(klines, price)`: neutral defaults under 50
bars; otherwise RSI, normalized MACD histogram score, moving-average
crossover score, blended 0.40 / 0.35 / 0.25 and clamped. -/
def computeMomentumScore (klines : List Candle) (price : ℚ) : MomentumResult :=
  if klines.length < 50 then
    ⟨false, none, 50, none, 50, none, none, 50, 50⟩
  else
    let rsi := computeRSI klines 14
    let rsiScore := rsi.getD 50
    let macdObj := computeMACDHistogram klines 12 26 9
    let macdPair := macdScorePair macdObj
    let macdScore := macdPair.1
    let macdHist := macdPair.2
    let closes := klines.map (·.close)
    let maPair := maPairOf closes
    let ma50 := maPair.1
    let ma200 := maPair.2
    let maScore := maScoreOf price maPair
    let momentumScore :=
      jsRound (rsiScore * (40/100) + (macdScore : ℚ) * (35/100) + (maScore : ℚ) * (25/100))
    ⟨true, rsi, rsiScore, macdHist, macdScore, ma50, ma200, maScore,
     max 0 (min 100 momentumScore)⟩

/- -------------------------------------------------------------
   CVD / LCI / MELA
------------------------------------------------------------- -/

/-- Running sums of a delta list (the `running += delta; push(running)`
loop of `computeCVD`). -/
def runningSums (cur : ℚ) : List ℚ → List ℚ
  | [] => []
  | d :: rest => (cur + d) :: runningSums (cur + d) rest

/-- Result of `computeCVD` (`{ available, cvd, cvdScore }`). -/
structure CvdResult where
  available : Bool
  cvd : ℚ
  cvdScore : ℤ
  deriving DecidableEq, Repr

/-- `computeCVD(klines, lookback)`: volume signed by candle direction,
accumulated over the trailing `lookback` bars, normalized by total
volume, scaled by 10, clipped to `[-1, 1]` and mapped around 50.
(JS `slice(-0)` keeps the whole array, hence the `lookback = 0` case.) -/
def computeCVD (klines : List Candle) (lookback : ℕ) : CvdResult :=
  if klines.length < 2 then ⟨false, 0, 50⟩
  else
    let slice := if lookback = 0 then klines else klines.drop (klines.length - lookback)
    let deltas := slice.map fun k =>
      if k.close > k.openP then k.volume
      else if k.close < k.openP then -k.volume else 0
    let totalVol := (slice.map (·.volume)).sum
    let cvdArr := runningSums 0 deltas
    let cvdFirst := cvdArr.headD 0
    let cvdLast := cvdArr.getLastD 0
    let cvdChange := cvdLast - cvdFirst
    let denom := if totalVol = 0 then 1 else totalVol
    let norm := cvdChange / denom
    let clipped := max (-1) (min 1 (norm * 10))
    let cvdScore := jsRound (50 + clipped * 50)
    ⟨true, cvdLast, max 0 (min 100 cvdScore)⟩

/-- Result of `computeLCI` (`{ lci, lciScore }`). -/
structure LciResult where
  lci : ℚ
  lciScore : ℤ
  deriving DecidableEq, Repr

/-- `computeLCI(bidsArr, asksArr, price, atr)`: fraction of combined
notional within `± atr` of the price (JS `|| 1` falls back to 1 when
the total, or the radius, is zero). -/
def computeLCI (bidsArr asksArr : List PriceLevel) (price atr : ℚ) : LciResult :=
  let all := bidsArr ++ asksArr
  let totalRaw := (all.map (·.usd)).sum
  let total := if totalRaw = 0 then 1 else totalRaw
  let radius := if atr = 0 then 1 else atr
  let minP := price - radius
  let maxP := price + radius
  let within :=
    ((all.filter fun l => decide (l.price ≥ minP ∧ l.price ≤ maxP)).map (·.usd)).sum
  let lci := within / total
  ⟨lci, jsRound (max 0 (min 100 (lci * 100)))⟩

/-- Result of `computeMELA` (`{ mela, melaScore, available }`). -/
structure MelaResult where
  mela : ℚ
  melaScore : ℤ
  available : Bool
  deriving DecidableEq, Repr

/-- `computeMELA(binClusters, cbClusters, clusterSize)`: counts Binance
cluster midpoints with a Coinbase midpoint within one cluster width
(each counted once, via `break`), over the larger midpoint count. -/
def computeMELA (binClusters cbClusters : Option (List Cluster))
    (clusterSize : ℚ) : MelaResult :=
  match binClusters, cbClusters with
  | some binCs, some cbCs =>
      let binMids := binCs.map fun c => (c.low + c.high) / 2
      let cbMids := cbCs.map fun c => (c.low + c.high) / 2
      let overlaps :=
        (binMids.filter fun b => cbMids.any fun c => decide (|b - c| ≤ max clusterSize 1)).length
      let denom := max 1 (max binMids.length cbMids.length)
      let mela := (overlaps : ℚ) / (denom : ℚ)
      ⟨mela, jsRound (mela * 100), true⟩
  | _, _ => ⟨0, 50, false⟩

/- -------------------------------------------------------------
   REGIME HEURISTIC and CONVICTION ENGINE
------------------------------------------------------------- -/

/-- `computeRegime`: LIQUIDITY_STRESSED when concentration and
volatility cross the heuristic thresholds, NORMAL otherwise.  (JS
`momentumObj.momentumScore < 45` is false when the score is absent,
matching `none` here; the `try/catch` has no failing path over exact
arithmetic.) -/
def computeRegime (atr price lci : ℚ) (momentumScore : Option ℚ) : String :=
  let volPct := atr / max price 1
  let momLow : Bool :=
    match momentumScore with
    | some m => decide (m < 45)
    | none => false
  if lci > 6/100 ∧ volPct > 1/100 then "LIQUIDITY_STRESSED"
  else if lci > 8/100 then "LIQUIDITY_STRESSED"
  else if momLow ∧ lci > 4/100 then "LIQUIDITY_STRESSED"
  else "NORMAL"

/-- `regime === "LIQUIDITY_STRESSED" || regime === "STRESSED"`. -/
def isRegimeStressed (regime : String) : Bool :=
  regime == "LIQUIDITY_STRESSED" || regime == "STRESSED"

/-- The flow-aware suppression rule of `computeConvictionAndSignal`
(lines 720-734), acting on the already rounded-and-clamped scores:
when the regime is stressed, the CVD score is a number below
`REGIME_CVD_THRESHOLD` and the cross-asset modifier is below
`REGIME_CAC_THRESHOLD`, penalize `buyScore` (strongly below the
`SUPPRESSION_BUY_SCORE_CAP`, by a fixed 8 points at or above it) and
credit `sellScore` by half the penalty. -/
def suppressionStep (regime : String) (cvdScore : Option ℚ) (cacModifier : ℚ)
    (buyScore sellScore : ℤ) : ℤ × ℤ :=
  match cvdScore with
  | some cvd =>
      if isRegimeStressed regime ∧ cvd < REGIME_CVD_THRESHOLD ∧
          cacModifier < REGIME_CAC_THRESHOLD then
        if buyScore < SUPPRESSION_BUY_SCORE_CAP then
          let suppressionAmount : ℤ :=
            max 15 (jsRound ((REGIME_CVD_THRESHOLD - cvd) / 5))
          (max 0 (buyScore - suppressionAmount),
           min 100 (sellScore + jsRound ((suppressionAmount : ℚ) / 2)))
        else (max 0 (buyScore - 8), min 100 (sellScore + 4))
      else (buyScore, sellScore)
  | none => (buyScore, sellScore)

/-- Clamp an integer score to `[0, 100]` (`Math.max(0, Math.min(100, x))`;
the source also re-applies `Math.round`, the identity on integers). -/
def clampScore (z : ℤ) : ℤ := max 0 (min 100 z)

/-- Suppression rule followed by the re-round-and-clamp of lines
737-738: the tail of `computeConvictionAndSignal` acting on the final
pre-suppression scores. -/
def suppressAndReclamp (regime : String) (cvdScore : Option ℚ) (cacModifier : ℚ)
    (buyScore sellScore : ℤ) : ℤ × ℤ :=
  let p := suppressionStep regime cvdScore cacModifier buyScore sellScore
  (clampScore p.1, clampScore p.2)

/-- The decision tail of `computeConvictionAndSignal` (lines 740-748):
BUY / SELL gating on the final scores, conviction as the max of the two
scores, replaced by their rounded average in the HOLD branch. -/
def decideSignal (buyScore sellScore : ℤ) : String × ℤ :=
  if buyScore > sellScore + 8 ∧ buyScore ≥ 60 then
    ("BUY", max buyScore sellScore)
  else if sellScore > buyScore + 8 ∧ sellScore ≥ 60 then
    ("SELL", max buyScore sellScore)
  else
    ("HOLD", jsRound (((buyScore : ℚ) + (sellScore : ℚ)) / 2))

/-- Round then clamp a raw score (`Math.max(0, Math.min(100,
Math.round(x)))`, lines 714-715). -/
def clampRound (x : ℚ) : ℤ := max 0 (min 100 (jsRound x))

/-- Futures metrics record (each field may be absent or `null`). -/
structure FuturesMetrics where
  success : Bool
  openInterestUSD : Option ℚ
  fundingRate : Option ℚ
  longShortRatio : Option ℚ

/-- The argument object of `computeConvictionAndSignal`. -/
structure ConvInput where
  buyPct : ℚ
  sellPct : ℚ
  talr : ℚ
  nearestSupportDistPct : ℚ
  nearestResistanceDistPct : ℚ
  bidPOI : POI
  askPOI : POI
  futuresMetrics : Option FuturesMetrics
  momentumScore : Option ℚ
  cvdScore : Option ℚ
  lciScore : Option ℚ
  melaScore : Option ℚ
  atr : ℚ
  cacModifier : Option ℚ
  regime : Option String

/-- The result object of `computeConvictionAndSignal`. -/
structure ConvResult where
  signal : String
  conviction : ℤ
  buyScore : ℤ
  sellScore : ℤ
  futuresStrength : ℤ
  futuresBias : ℚ
  momentumBias : ℚ
  cvdBias : ℚ
  lciBias : ℚ
  melaBias : ℚ
  cacModifier : ℚ
  regime : String

/-- `computeConvictionAndSignal` in full.  `log10` abstracts the JS
`Math.log10` primitive (only used for the open-interest strength).
Notes tying the embedding to the JS source:
* `cacModifier` defaults to the futures long/short proxy;
* the defaulted `computeRegime` call reads `bidPOI.poi[0]?.price`,
  a field POI clusters do not carry, so its price argument is the
  final `|| 1` fallback;
* `askPOI.total || 1` and `longShortRatio || 1` turn 0 into 1;
  `x || 0` forms are the identity on rational values. -/
def computeConvictionAndSignal (log10 : ℚ → ℚ) (inp : ConvInput) : ConvResult :=
  let cacModifier : ℚ :=
    match inp.cacModifier with
    | some c => c
    | none =>
        match inp.futuresMetrics with
        | some fm =>
            match fm.longShortRatio with
            | some ls => (ls - 1) * 100
            | none => 0
        | none => 0
  let regime : String :=
    match inp.regime with
    | some r => r
    | none => computeRegime inp.atr 1 (inp.lciScore.getD 0 / 100) inp.momentumScore
  let dominanceBias := inp.buyPct - inp.sellPct
  let talrBias := (50 - inp.talr) / 2
  let proxBuy := max 0 (40 - inp.nearestSupportDistPct)
  let proxSell := max 0 (40 - inp.nearestResistanceDistPct)
  let bidMass := inp.bidPOI.total
  let askMass := if inp.askPOI.total = 0 then 1 else inp.askPOI.total
  let massBias := (bidMass - askMass) / (bidMass + askMass) * 20
  let futuresPair : ℤ × ℚ :=
    match inp.futuresMetrics with
    | some fm =>
        if fm.success then
          let oiUSD := fm.openInterestUSD.getD 0
          let futuresStrength : ℤ := min 30 (jsRound (log10 (oiUSD + 1) * 3))
          let fr := fm.fundingRate.getD 0
          let frBias := fr * 1000
          let ls : ℚ :=
            match fm.longShortRatio with
            | some v => if v = 0 then 1 else v
            | none => 1
          let lsBias := (ls - 1) * 10
          (futuresStrength, (lsBias - frBias) * ((futuresStrength : ℚ) / 20))
        else (0, 0)
    | none => (0, 0)
  let futuresStrength := futuresPair.1
  let futuresBias := futuresPair.2
  let momentumBias : ℚ :=
    match inp.momentumScore with
    | some m => (m - 50) / 50 * MOMENTUM_BIAS_MAX
    | none => 0
  let cvdBias : ℚ :=
    match inp.cvdScore with
    | some c => (c - 50) / 50 * CVD_BIAS_MAX
    | none => 0
  let lciBias : ℚ :=
    match inp.lciScore with
    | some l =>
        (if inp.buyPct ≥ inp.sellPct then l - 50 else 50 - l) / 50 * LCI_BIAS_MAX
    | none => 0
  let melaBias : ℚ :=
    match inp.melaScore with
    | some m =>
        (if inp.buyPct ≥ inp.sellPct then m - 50 else 50 - m) / 50 * MELA_BIAS_MAX
    | none => 0
  let buyRaw := 50 + dominanceBias * (35/100) + talrBias * (1/2) + proxBuy * (1/2)
      + massBias * (4/10) + futuresBias + momentumBias
  let sellRaw := 50 - dominanceBias * (35/100) - talrBias * (1/2) + proxSell * (1/2)
      - massBias * (4/10) - futuresBias - momentumBias
  let buyRaw := buyRaw + (cvdBias + lciBias + melaBias)
  let sellRaw := sellRaw - (cvdBias + lciBias + melaBias)
  let proxFactor := max (-PROXIMITY_INFLUENCE_MAX)
      (min PROXIMITY_INFLUENCE_MAX ((40 - inp.nearestSupportDistPct) / 4))
  let buyRaw := buyRaw + proxFactor
  let sellRaw := sellRaw - proxFactor
  let cacPenalty := cacModifier * (2/10)
  let buyRaw := buyRaw + cacPenalty
  let sellRaw := sellRaw - cacPenalty
  let buyScore₁ := clampRound buyRaw
  let sellScore₁ := clampRound sellRaw
  let scores := suppressAndReclamp regime inp.cvdScore cacModifier buyScore₁ sellScore₁
  let d := decideSignal scores.1 scores.2
  ⟨d.1, d.2, scores.1, scores.2, futuresStrength, futuresBias, momentumBias,
   cvdBias, lciBias, melaBias, cacModifier, regime⟩

/- -------------------------------------------------------------
   MODULE-LEVEL SMOOTHING STATE
------------------------------------------------------------- -/

/-- The module-level anti-oscillation state (lines 56-59 of the
source). -/
structure EngineState where
  lastSignal : String
  lastBuyScore : ℤ
  lastSellScore : ℤ
  trendConsistencyCounter : ℤ

/-- The declared initial values of the module-level state. -/
def initialEngineState : EngineState := ⟨"HOLD", 50, 50, 0⟩

/-- State-passing translation of `computeConvictionAndSignal`: the
function body (lines 631-752) contains no read of and no assignment to
`lastSignal`, `lastBuyScore`, `lastSellScore` or
`trendConsistencyCounter`, so its effect on the module-level state is
the identity and its result is computed from the arguments alone. -/
def computeConvictionAndSignalSt (log10 : ℚ → ℚ) (inp : ConvInput)
    (st : EngineState) : ConvResult × EngineState :=
  (computeConvictionAndSignal log10 inp, st)

/- -------------------------------------------------------------
   HELPER LEMMAS
------------------------------------------------------------- -/

theorem jsRound_lower {a : ℤ} {q : ℚ} (h : (a : ℚ) ≤ q) : a ≤ jsRound q := by
  unfold jsRound
  rw [Int.le_floor]
  linarith

theorem jsRound_upper {q : ℚ} {b : ℤ} (h : q ≤ (b : ℚ)) : jsRound q ≤ b := by
  unfold jsRound
  rw [Int.floor_le_iff]
  linarith

theorem clampScore_nonneg (z : ℤ) : 0 ≤ clampScore z := le_max_left 0 _

theorem clampScore_le (z : ℤ) : clampScore z ≤ 100 := by
  unfold clampScore
  omega

theorem clampScore_eq_of_mem {z : ℤ} (h0 : 0 ≤ z) (h1 : z ≤ 100) : clampScore z = z := by
  unfold clampScore
  omega

theorem clampRound_nonneg (x : ℚ) : 0 ≤ clampRound x := le_max_left 0 _

theorem clampRound_le (x : ℚ) : clampRound x ≤ 100 := by
  unfold clampRound
  omega

theorem computeRSI_mem {klines : List Candle} {period : ℕ} {v : ℚ}
    (h : computeRSI klines period = some v) : 0 ≤ v ∧ v ≤ 100 := by
  simp only [computeRSI] at h
  split_ifs at h
  · rw [Option.some.injEq] at h
    subst h
    norm_num
  · rw [Option.some.injEq] at h
    subst h
    norm_num
  · rw [Option.some.injEq] at h
    subst h
    constructor
    · exact le_max_left 0 _
    · exact max_le (by norm_num) (min_le_left 100 _)

theorem macdScorePair_mem (m : Option MacdResult) :
    0 ≤ (macdScorePair m).1 ∧ (macdScorePair m).1 ≤ 100 := by
  cases m with
  | none => simp [macdScorePair]
  | some m =>
      dsimp only [macdScorePair]
      omega

theorem maScoreOf_mem (price : ℚ) (p : Option ℚ × Option ℚ) :
    0 ≤ maScoreOf price p ∧ maScoreOf price p ≤ 100 := by
  rcases p with ⟨m50, m200⟩
  cases m50 with
  | none => simp [maScoreOf]
  | some m50 =>
      cases m200 with
      | none =>
          simp only [maScoreOf]
          split_ifs <;> omega
      | some m200 =>
          simp only [maScoreOf]
          split_ifs <;> omega

theorem decideSignal_conviction_mem {b s : ℤ}
    (hb0 : 0 ≤ b) (hb1 : b ≤ 100) (hs0 : 0 ≤ s) (hs1 : s ≤ 100) :
    0 ≤ (decideSignal b s).2 ∧ (decideSignal b s).2 ≤ 100 := by
  unfold decideSignal
  split_ifs
  · simp only []
    omega
  · simp only []
    omega
  · simp only []
    constructor
    · refine jsRound_lower ?_
      push_cast
      have hb : (0 : ℚ) ≤ (b : ℚ) := by exact_mod_cast hb0
      have hs : (0 : ℚ) ≤ (s : ℚ) := by exact_mod_cast hs0
      linarith
    · refine jsRound_upper ?_
      push_cast
      have hb : (b : ℚ) ≤ 100 := by exact_mod_cast hb1
      have hs : (s : ℚ) ≤ 100 := by exact_mod_cast hs1
      linarith

theorem liqWalk_some {maxReach target currentPrice : ℚ} :
    ∀ (l : List PriceLevel) (cum : ℚ) (z : LiqZone),
      liqWalk maxReach target currentPrice cum l = some z →
      z.accum ≥ target ∧ z.dist ≤ maxReach ∧ z.thresholdHit = target := by
  intro l
  induction l with
  | nil =>
      intro cum z h
      simp [liqWalk] at h
  | cons x xs ih =>
      intro cum z h
      simp only [liqWalk] at h
      split_ifs at h with hg
      · rw [Option.some.injEq] at h
        subst h
        exact ⟨hg.2, hg.1, rfl⟩
      · exact ih _ z h

theorem liqWalk_none {maxReach target currentPrice : ℚ} :
    ∀ (l : List PriceLevel) (cum : ℚ),
      liqWalk maxReach target currentPrice cum l = none →
      ∀ k, k < l.length →
        ¬(|currentPrice - (l.getD k ⟨0, 0⟩).price| ≤ maxReach ∧
          cum + ((l.take (k+1)).map (·.usd)).sum ≥ target) := by
  intro l
  induction l with
  | nil =>
      intro cum h k hk
      simp at hk
  | cons x xs ih =>
      intro cum h k hk
      simp only [liqWalk] at h
      split_ifs at h with hg
      · cases k with
        | zero =>
            intro hcontra
            apply hg
            refine ⟨hcontra.1, ?_⟩
            have hs : (((x :: xs).take 1).map (·.usd)).sum = x.usd := by simp
            have := hcontra.2
            rw [hs] at this
            linarith
        | succ k =>
            have hrec := ih (cum + x.usd) h k (by simpa using hk)
            intro hcontra
            apply hrec
            refine ⟨by simpa using hcontra.1, ?_⟩
            have hs : (((x :: xs).take (k + 2)).map (·.usd)).sum =
                x.usd + ((xs.take (k + 1)).map (·.usd)).sum := by simp
            have := hcontra.2
            rw [hs] at this
            linarith

theorem usdAt_nil (q : ℚ) : usdAt [] q = 0 := rfl

theorem usdAt_cons (x : PriceLevel) (xs : List PriceLevel) (q : ℚ) :
    usdAt (x :: xs) q = (if x.price = q then x.usd else 0) + usdAt xs q := by
  simp only [usdAt, List.filter_cons, decide_eq_true_eq]
  split_ifs with h
  · simp
  · simp

theorem upsertUsd_keys (l : List PriceLevel) (p v : ℚ) :
    (upsertUsd l p v).map (·.price) =
      if p ∈ l.map (·.price) then l.map (·.price) else l.map (·.price) ++ [p] := by
  induction l with
  | nil => simp [upsertUsd]
  | cons x xs ih =>
      simp only [upsertUsd]
      by_cases hx : x.price = p
      · rw [if_pos hx, if_pos (by simp [hx])]
        simp
      · rw [if_neg hx]
        by_cases hp : p ∈ xs.map (·.price)
        · rw [if_pos (by simp [hp])]
          simp only [List.map_cons, ih, if_pos hp]
        · rw [if_neg (by
            simp only [List.map_cons, List.mem_cons, not_or]
            exact ⟨fun h => hx h.symm, hp⟩)]
          simp only [List.map_cons, ih, if_neg hp, List.cons_append]

theorem upsertUsd_usdAt (l : List PriceLevel) (p v q : ℚ) :
    usdAt (upsertUsd l p v) q = usdAt l q + (if q = p then v else 0) := by
  induction l with
  | nil =>
      rw [show upsertUsd [] p v = [⟨p, v⟩] from rfl, usdAt_cons, usdAt_nil]
      dsimp only
      rcases eq_or_ne q p with h | h
      · rw [if_pos h.symm, if_pos h]
        ring
      · rw [if_neg (fun hc => h (Eq.symm hc)), if_neg h]
  | cons x xs ih =>
      simp only [upsertUsd]
      by_cases hx : x.price = p
      · rw [if_pos hx, usdAt_cons, usdAt_cons]
        by_cases hq : x.price = q
        · have hqp : q = p := by rw [← hq, hx]
          rw [if_pos hq, if_pos hq, if_pos hqp]
          ring
        · have hqp : ¬q = p := fun h => hq (by rw [hx, ← h])
          rw [if_neg hq, if_neg hq, if_neg hqp]
          ring
      · rw [if_neg hx, usdAt_cons, usdAt_cons, ih]
        ring

theorem upsertUsd_nodup {l : List PriceLevel} (p v : ℚ)
    (h : (l.map (·.price)).Nodup) : ((upsertUsd l p v).map (·.price)).Nodup := by
  rw [upsertUsd_keys]
  split_ifs with hp
  · exact h
  · rw [List.nodup_append]
    refine ⟨h, by simp, ?_⟩
    intro a ha hb
    simp only [List.mem_singleton] at hb
    subst hb
    exact hp ha

theorem upsertUsd_mem_keys (l : List PriceLevel) (p v q : ℚ) :
    q ∈ (upsertUsd l p v).map (·.price) ↔ q ∈ l.map (·.price) ∨ q = p := by
  rw [upsertUsd_keys]
  split_ifs with hp
  · constructor
    · exact fun h => Or.inl h
    · rintro (h | h)
      · exact h
      · exact h ▸ hp
  · simp

theorem usdAt_eq_zero_of_not_mem {l : List PriceLevel} {q : ℚ}
    (h : q ∉ l.map (·.price)) : usdAt l q = 0 := by
  induction l with
  | nil => simp [usdAt]
  | cons x xs ih =>
      simp only [List.map_cons, List.mem_cons, not_or] at h
      simp only [usdAt, List.filter_cons]
      rw [if_neg (by simpa using Ne.symm h.1)]
      exact ih h.2

theorem usdAt_of_mem_nodup :
    ∀ (l : List PriceLevel), ((l.map (·.price)).Nodup) →
      ∀ pl ∈ l, usdAt l pl.price = pl.usd := by
  intro l
  induction l with
  | nil => simp
  | cons x xs ih =>
      intro hnd pl hpl
      simp only [List.map_cons, List.nodup_cons] at hnd
      rw [usdAt_cons]
      rcases List.mem_cons.mp hpl with h | h
      · subst h
        rw [if_pos rfl, usdAt_eq_zero_of_not_mem hnd.1]
        ring
      · have hne : x.price ≠ pl.price := fun he =>
          hnd.1 (he ▸ List.mem_map_of_mem (·.price) h)
        rw [if_neg hne, ih hnd.2 pl h]
        ring

theorem agg_fold_nodup :
    ∀ (levels : List (Option ℚ × Option ℚ)) (acc : List PriceLevel),
      ((acc.map (·.price)).Nodup) →
      (((levels.foldl aggStep acc).map (·.price)).Nodup) := by
  intro levels
  induction levels with
  | nil => exact fun acc h => h
  | cons l ls ih =>
      intro acc h
      rw [List.foldl_cons]
      refine ih _ ?_
      rcases l with ⟨p, s⟩
      rcases p with _ | p
      · exact h
      · rcases s with _ | s
        · exact h
        · simp only [aggStep]
          split_ifs
          · exact h
          · exact upsertUsd_nodup _ _ h

theorem agg_fold_mem :
    ∀ (levels : List (Option ℚ × Option ℚ)) (acc : List PriceLevel) (q : ℚ),
      (q ∈ (levels.foldl aggStep acc).map (·.price) ↔
        q ∈ acc.map (·.price) ∨ q ∈ (retainedEntries levels).map (·.1)) := by
  intro levels
  induction levels with
  | nil =>
      intro acc q
      simp [retainedEntries]
  | cons l ls ih =>
      intro acc q
      rw [List.foldl_cons]
      rcases l with ⟨p, s⟩
      rcases p with _ | p
      · rw [ih]
        simp [aggStep, retainedEntries]

      · rcases s with _ | s
        · rw [ih]
          simp [aggStep, retainedEntries]
        · by_cases hs : s ≤ 0
          · rw [ih]
            simp [aggStep, hs, retainedEntries]
          · rw [ih]
            simp only [aggStep, hs, if_false, upsertUsd_mem_keys,
              retainedEntries, List.filterMap_cons]
            simp only [List.map_cons, List.mem_cons]
            tauto

theorem agg_fold_usdAt :
    ∀ (levels : List (Option ℚ × Option ℚ)) (acc : List PriceLevel) (q : ℚ),
      usdAt (levels.foldl aggStep acc) q = usdAt acc q + notionalAt levels q := by
  intro levels
  induction levels with
  | nil =>
      intro acc q
      simp [notionalAt, retainedEntries]
  | cons l ls ih =>
      intro acc q
      rw [List.foldl_cons]
      rcases l with ⟨p, s⟩
      rcases p with _ | p
      · rw [ih]
        simp [aggStep, notionalAt, retainedEntries]
      · rcases s with _ | s
        · rw [ih]
          simp [aggStep, notionalAt, retainedEntries]
        · by_cases hs : s ≤ 0
          · rw [ih]
            simp [aggStep, hs, notionalAt, retainedEntries]
          · rw [ih]
            simp only [aggStep, hs, if_false, upsertUsd_usdAt]
            have hn : notionalAt ((some p, some s) :: ls) q =
                (if q = p then p * s else 0) + notionalAt ls q := by
              simp only [notionalAt, retainedEntries, List.filterMap_cons]
              rw [if_neg hs]
              rcases eq_or_ne q p with h | h
              · simp [List.filter_cons, h]
              · simp [List.filter_cons, h, Ne.symm h]
            rw [hn]
            ring

theorem poiLoop_spec (t : ℚ) :
    ∀ (cs : List Cluster) (cum : ℚ),
      ∃ k, k ≤ cs.length ∧ poiLoop t cum cs = cs.take k ∧
        (∀ j, 0 < j → j < k → cum + ((cs.take j).map (·.usd)).sum < t) ∧
        (cum + ((cs.take k).map (·.usd)).sum ≥ t ∨ k = cs.length) := by
  intro cs
  induction cs with
  | nil =>
      intro cum
      exact ⟨0, Nat.le_refl 0, by simp [poiLoop],
        fun j hj hjk => absurd hjk (by omega), Or.inr rfl⟩
  | cons c rest ih =>
      intro cum
      by_cases hge : cum + c.usd ≥ t
      · refine ⟨1, by simp, ?_, fun j hj hjk => absurd (by omega : j = 0) (by omega), ?_⟩
        · simp only [poiLoop]
          rw [if_pos hge]
          simp
        · left
          rw [List.take_succ_cons, List.take_zero, List.map_cons, List.map_nil,
            List.sum_cons, List.sum_nil]
          linarith
      · obtain ⟨k, hk, heq, hlt, hor⟩ := ih (cum + c.usd)
        refine ⟨k + 1, by simpa using Nat.succ_le_succ hk, ?_, ?_, ?_⟩
        · simp only [poiLoop]
          rw [if_neg hge, heq, List.take_succ_cons]
        · intro j hj hjk
          cases j with
          | zero => omega
          | succ i =>
              rw [List.take_succ_cons, List.map_cons, List.sum_cons]
              rcases Nat.eq_zero_or_pos i with hi | hi
              · subst hi
                simp only [List.take_zero, List.map_nil, List.sum_nil]
                have := not_le.mp hge
                linarith
              · have := hlt i hi (by omega)
                linarith
        · rcases hor with h | h
          · left
            rw [List.take_succ_cons, List.map_cons, List.sum_cons]
            linarith
          · right
            simp [h]

theorem poiLoop_length_pos (t cum : ℚ) (c : Cluster) (rest : List Cluster) :
    0 < (poiLoop t cum (c :: rest)).length := by
  simp only [poiLoop]
  split_ifs <;> simp

theorem poiLoop_mono {t₁ t₂ : ℚ} (h : t₁ ≤ t₂) :
    ∀ (cs : List Cluster) (cum : ℚ),
      (poiLoop t₁ cum cs).length ≤ (poiLoop t₂ cum cs).length := by
  intro cs
  induction cs with
  | nil => simp [poiLoop]
  | cons c rest ih =>
      intro cum
      by_cases h1 : cum + c.usd ≥ t₁
      · have he : poiLoop t₁ cum (c :: rest) = [c] := by
          simp only [poiLoop]
          rw [if_pos h1]
        rw [he]
        simpa using poiLoop_length_pos t₂ cum c rest
      · have h2 : ¬cum + c.usd ≥ t₂ := fun hh => h1 (le_trans h hh)
        simp only [poiLoop]
        rw [if_neg h1, if_neg h2]
        simpa using ih (cum + c.usd)

/- -------------------------------------------------------------
   CLAIM THEOREMS
------------------------------------------------------------- -/

/-- Claim C1: over the final (clamped, rounded) integer scores, the
decision tail emits BUY exactly when `buyScore > sellScore + 8` and
`buyScore ≥ 60`, SELL exactly when `sellScore > buyScore + 8` and
`sellScore ≥ 60`, and HOLD otherwise; conviction is the max of the two
scores for BUY/SELL and their rounded average for HOLD; in particular
`70/55 ↦ (BUY, 70)`, `58/52 ↦ HOLD`, and `50/50 ↦ (HOLD, 50)`. -/
theorem claim1_decision_rule :
    (∀ b s : ℤ,
      ((decideSignal b s).1 = "BUY" ↔ b > s + 8 ∧ b ≥ 60) ∧
      ((decideSignal b s).1 = "SELL" ↔ s > b + 8 ∧ s ≥ 60) ∧
      ((decideSignal b s).1 = "HOLD" ↔
        ¬(b > s + 8 ∧ b ≥ 60) ∧ ¬(s > b + 8 ∧ s ≥ 60)) ∧
      ((decideSignal b s).1 = "BUY" ∨ (decideSignal b s).1 = "SELL" →
        (decideSignal b s).2 = max b s) ∧
      ((decideSignal b s).1 = "HOLD" →
        (decideSignal b s).2 = jsRound (((b : ℚ) + (s : ℚ)) / 2))) ∧
    decideSignal 70 55 = ("BUY", 70) ∧
    (decideSignal 58 52).1 = "HOLD" ∧
    decideSignal 50 50 = ("HOLD", 50) := by
  refine ⟨fun b s => ?_, by decide, by decide, ?_⟩
  · unfold decideSignal
    split_ifs with h1 h2
    · exact ⟨iff_of_true rfl h1, iff_of_false (by simp) (by omega),
        iff_of_false (by simp) (fun h => h.1 h1),
        fun _ => rfl, fun h => absurd h (by simp)⟩
    · exact ⟨iff_of_false (by simp) h1, iff_of_true rfl h2,
        iff_of_false (by simp) (fun h => h.2 h2),
        fun _ => rfl, fun h => absurd h (by simp)⟩
    · exact ⟨iff_of_false (by simp) h1, iff_of_false (by simp) h2,
        iff_of_true rfl ⟨h1, h2⟩,
        fun h => h.elim (fun h => absurd h (by simp)) (fun h => absurd h (by simp)),
        fun _ => rfl⟩
  · norm_num [decideSignal, jsRound]

/-- Witness for claim C1: the general decision rule applied at the
concrete final scores 70 / 55. -/
theorem claim1_decision_rule_witness :
    (decideSignal 70 55).2 = max 70 55 :=
  (claim1_decision_rule.1 70 55).2.2.2.1 (Or.inl (by decide))

/-- Claim C2 (code evaluated at the failing input): the deadband the
spec (and the source's own comments, lines 4 and 49) describe is not
applied anywhere — with final scores 61 / 50, whose difference 11 is
inside `DEAD_BAND_THRESHOLD = 12`, the decision tail emits BUY with
conviction 61, not HOLD, on every tick. -/
theorem claim2_deadband_eval :
    decideSignal 61 50 = ("BUY", 61) ∧ |(61 : ℚ) - 50| < DEAD_BAND_THRESHOLD := by
  constructor
  · decide
  · norm_num [DEAD_BAND_THRESHOLD]

/-- Counterexample to claim C3: with the regime LIQUIDITY_STRESSED, a
CVD score of 20 (< 40) and a cross-asset modifier of -1/2 — negative,
but not below the source's trigger threshold `REGIME_CAC_THRESHOLD =
-1` — the suppression rule does not fire: `buyScore` stays 50 instead
of decreasing. -/
theorem claim3_counterexample :
    suppressAndReclamp "LIQUIDITY_STRESSED" (some 20) (-(1 : ℚ)/2) 50 50 = (50, 50) ∧
    (-(1 : ℚ)/2) < 0 ∧ (20 : ℚ) < 40 ∧ ¬((50 : ℤ) < 50) := by
  refine ⟨?_, by norm_num, by norm_num, by norm_num⟩
  simp [suppressAndReclamp, suppressionStep, isRegimeStressed,
    REGIME_CVD_THRESHOLD, REGIME_CAC_THRESHOLD, clampScore]
  norm_num

/-- Claim C3 as amended: the suppression rule requires the cross-asset
modifier to be below `REGIME_CAC_THRESHOLD = -1` (not merely negative);
whenever the regime is LIQUIDITY_STRESSED, the CVD score is a number
below 40 and `cacModifier < -1`, the post-suppression `buyScore` is
strictly below the (clamped, rounded) pre-suppression `buyScore`
provided the latter is positive. -/
theorem claim3_suppression_fires (cvd cac : ℚ) (b s : ℤ)
    (hcvd : cvd < 40) (hcac : cac < REGIME_CAC_THRESHOLD)
    (hb : 0 < b) (hb100 : b ≤ 100) :
    (suppressAndReclamp "LIQUIDITY_STRESSED" (some cvd) cac b s).1 < b := by
  simp only [suppressAndReclamp, suppressionStep]
  split_ifs with htrig hcap
  · have h15 : (15 : ℤ) ≤ max 15 (jsRound ((REGIME_CVD_THRESHOLD - cvd) / 5)) :=
      le_max_left _ _
    simp only [clampScore]
    omega
  · simp only [clampScore]
    omega
  · exact absurd ⟨by decide, by simpa [REGIME_CVD_THRESHOLD] using hcvd, hcac⟩ htrig

/-- Witness for claim C3 (amended): the suppression strictly lowers a
pre-suppression `buyScore` of 50 at `cvdScore = 20`, `cacModifier = -2`. -/
theorem claim3_suppression_fires_witness :
    (suppressAndReclamp "LIQUIDITY_STRESSED" (some 20) (-2 : ℚ) 50 50).1 < 50 :=
  claim3_suppression_fires 20 (-2) 50 50 (by norm_num)
    (by norm_num [REGIME_CAC_THRESHOLD]) (by norm_num) (by norm_num)

/-- Counterexample to claim C4: with `cvdScore = 20`, `cacModifier =
-2` and a pre-suppression `buyScore` of 10 (below the cap of 55), the
claim's "reduced by max(15, round((40 - cvdScore) / 5))" would land at
`10 - 15 = -5`, but the code floors the result at 0 — the reduction is
only 10 points. -/
theorem claim4_counterexample :
    (suppressAndReclamp "LIQUIDITY_STRESSED" (some 20) (-2 : ℚ) 10 50).1 = 0 ∧
    (10 : ℤ) - max 15 (jsRound (((40 : ℚ) - 20) / 5)) = -5 := by
  constructor
  · norm_num [suppressAndReclamp, suppressionStep, isRegimeStressed,
      REGIME_CVD_THRESHOLD, REGIME_CAC_THRESHOLD, SUPPRESSION_BUY_SCORE_CAP,
      clampScore, jsRound]
  · norm_num [jsRound]

/-- Claim C4 as amended: when the suppression rule fires, a
pre-suppression `buyScore` below the cap 55 becomes `max(0, buyScore -
penalty)` with `penalty = max(15, round((40 - cvdScore) / 5))` while
`sellScore` becomes `min(100, sellScore + round(penalty / 2))`;
otherwise `buyScore` drops by a fixed 8 and `sellScore` becomes
`min(100, sellScore + 4)` — i.e. the claimed updates hold with the
results clamped to `[0, 100]`.  At `cvdScore = 20`, `cacModifier = -2`,
`buyScore = 65`, `sellScore = 50` the result is `(57, 54)`: `buyScore ≤
57` and `sellScore` up by exactly 4. -/
theorem claim4_suppression_amounts :
    (∀ (cvd cac : ℚ) (b s : ℤ), cvd < 40 → cac < REGIME_CAC_THRESHOLD →
      0 ≤ b → b ≤ 100 → 0 ≤ s → s ≤ 100 →
      (b < 55 →
        suppressAndReclamp "LIQUIDITY_STRESSED" (some cvd) cac b s =
          (max 0 (b - max 15 (jsRound ((40 - cvd) / 5))),
           min 100 (s + jsRound (((max 15 (jsRound ((40 - cvd) / 5)) : ℤ) : ℚ) / 2)))) ∧
      (55 ≤ b →
        suppressAndReclamp "LIQUIDITY_STRESSED" (some cvd) cac b s =
          (b - 8, min 100 (s + 4)))) ∧
    suppressAndReclamp "LIQUIDITY_STRESSED" (some 20) (-2 : ℚ) 65 50 = (57, 54) := by
  constructor
  · intro cvd cac b s hcvd hcac hb0 hb100 hs0 hs100
    have hJ : ∀ A : ℤ, 15 ≤ A → 0 ≤ jsRound ((A : ℚ) / 2) := by
      intro A hA
      refine jsRound_lower ?_
      have : (15 : ℚ) ≤ (A : ℚ) := by exact_mod_cast hA
      push_cast
      linarith
    simp only [suppressAndReclamp, suppressionStep]
    constructor
    · intro hcap
      split_ifs with htrig hlt
      · have h15 : (15 : ℤ) ≤ max 15 (jsRound ((REGIME_CVD_THRESHOLD - cvd) / 5)) :=
          le_max_left _ _
        have := hJ _ h15
        simp only [REGIME_CVD_THRESHOLD, clampScore] at *
        refine Prod.ext ?_ ?_
        · simp only []
          omega
        · simp only []
          omega
      · exact absurd (by simpa [SUPPRESSION_BUY_SCORE_CAP] using hcap) hlt
      · exact absurd ⟨by decide, by simpa [REGIME_CVD_THRESHOLD] using hcvd, hcac⟩ htrig
    · intro hcap
      split_ifs with htrig hlt
      · exact absurd hlt (by simp [SUPPRESSION_BUY_SCORE_CAP]; omega)
      · simp only [clampScore]
        refine Prod.ext ?_ ?_
        · simp only []
          omega
        · simp only []
          omega
      · exact absurd ⟨by decide, by simpa [REGIME_CVD_THRESHOLD] using hcvd, hcac⟩ htrig
  · norm_num [suppressAndReclamp, suppressionStep, isRegimeStressed,
      REGIME_CVD_THRESHOLD, REGIME_CAC_THRESHOLD, SUPPRESSION_BUY_SCORE_CAP,
      clampScore]

/-- Witness for claim C4 (amended): the fixed-8-point branch applied at
`cvdScore = 20`, `cacModifier = -2`, scores 65 / 50. -/
theorem claim4_suppression_amounts_witness :
    suppressAndReclamp "LIQUIDITY_STRESSED" (some 20) (-2 : ℚ) 65 50 =
      (65 - 8, min 100 (50 + 4)) :=
  (claim4_suppression_amounts.1 20 (-2) 65 50 (by norm_num)
    (by norm_num [REGIME_CAC_THRESHOLD]) (by norm_num) (by norm_num)
    (by norm_num) (by norm_num)).2 (by norm_num)

/-- Claim C5: every `*Score` field the engine computes — the momentum
layer's `rsiScore`, `macdScore`, `maScore` and `momentumScore`, the
flow metrics `cvdScore`, `lciScore` and `melaScore`, and the conviction
engine's `buyScore`, `sellScore` and `conviction` — lies in `[0, 100]`,
for all inputs and for every interpretation of the `log10` primitive. -/
theorem claim5_score_ranges :
    (∀ (klines : List Candle) (price : ℚ),
      (0 ≤ (computeMomentumScore klines price).rsiScore ∧
        (computeMomentumScore klines price).rsiScore ≤ 100) ∧
      (0 ≤ (computeMomentumScore klines price).macdScore ∧
        (computeMomentumScore klines price).macdScore ≤ 100) ∧
      (0 ≤ (computeMomentumScore klines price).maScore ∧
        (computeMomentumScore klines price).maScore ≤ 100) ∧
      (0 ≤ (computeMomentumScore klines price).momentumScore ∧
        (computeMomentumScore klines price).momentumScore ≤ 100)) ∧
    (∀ (klines : List Candle) (lookback : ℕ),
      0 ≤ (computeCVD klines lookback).cvdScore ∧
        (computeCVD klines lookback).cvdScore ≤ 100) ∧
    (∀ (bidsArr asksArr : List PriceLevel) (price atr : ℚ),
      0 ≤ (computeLCI bidsArr asksArr price atr).lciScore ∧
        (computeLCI bidsArr asksArr price atr).lciScore ≤ 100) ∧
    (∀ (binClusters cbClusters : Option (List Cluster)) (clusterSize : ℚ),
      0 ≤ (computeMELA binClusters cbClusters clusterSize).melaScore ∧
        (computeMELA binClusters cbClusters clusterSize).melaScore ≤ 100) ∧
    (∀ (log10 : ℚ → ℚ) (inp : ConvInput),
      (0 ≤ (computeConvictionAndSignal log10 inp).buyScore ∧
        (computeConvictionAndSignal log10 inp).buyScore ≤ 100) ∧
      (0 ≤ (computeConvictionAndSignal log10 inp).sellScore ∧
        (computeConvictionAndSignal log10 inp).sellScore ≤ 100) ∧
      (0 ≤ (computeConvictionAndSignal log10 inp).conviction ∧
        (computeConvictionAndSignal log10 inp).conviction ≤ 100)) := by
  refine ⟨?_, ?_, ?_, ?_, ?_⟩
  · intro klines price
    simp only [computeMomentumScore]
    split_ifs with hlen
    · norm_num
    · refine ⟨?_, macdScorePair_mem _, maScoreOf_mem _ _, ?_⟩
      · cases hr : computeRSI klines 14 with
        | none =>
            simp only [Option.getD_none]
            norm_num
        | some v =>
            have := computeRSI_mem hr
            simpa using this
      · dsimp only
        omega
  · intro klines lookback
    simp only [computeCVD]
    split_ifs with hlen
    · norm_num
    all_goals (dsimp only; omega)
  · intro bidsArr asksArr price atr
    simp only [computeLCI]
    constructor
    · exact jsRound_lower (by exact_mod_cast le_max_left 0 _)
    · refine jsRound_upper ?_
      push_cast
      exact max_le (by norm_num) (min_le_left 100 _)
  · intro binClusters cbClusters clusterSize
    cases binClusters with
    | none => simp [computeMELA]
    | some binCs =>
        cases cbClusters with
        | none => simp [computeMELA]
        | some cbCs =>
            simp only [computeMELA]
            set binMids := binCs.map fun c => (c.low + c.high) / 2 with hbm
            set cbMids := cbCs.map fun c => (c.low + c.high) / 2 with hcm
            set ov := (binMids.filter fun b =>
              cbMids.any fun c => decide (|b - c| ≤ max clusterSize 1)).length with hov
            set dn := max 1 (max binMids.length cbMids.length) with hdn
            have hdpos : 0 < dn := lt_of_lt_of_le one_pos (le_max_left 1 _)
            have hod : ov ≤ dn := by
              calc ov ≤ binMids.length := List.length_filter_le _ _
              _ ≤ max binMids.length cbMids.length := le_max_left _ _
              _ ≤ dn := le_max_right 1 _
            have hm0 : (0 : ℚ) ≤ (ov : ℚ) / (dn : ℚ) :=
              div_nonneg (by positivity) (by positivity)
            have hm1 : (ov : ℚ) / (dn : ℚ) ≤ 1 := by
              rw [div_le_one (by exact_mod_cast hdpos)]
              exact_mod_cast hod
            constructor
            · exact jsRound_lower (by nlinarith)
            · refine jsRound_upper ?_
              push_cast
              nlinarith
  · intro log10 inp
    refine ⟨⟨?_, ?_⟩, ⟨?_, ?_⟩, ?_⟩
    · exact clampScore_nonneg _
    · exact clampScore_le _
    · exact clampScore_nonneg _
    · exact clampScore_le _
    · exact decideSignal_conviction_mem (clampScore_nonneg _) (clampScore_le _)
        (clampScore_nonneg _) (clampScore_le _)

/-- Claim C8: any zone the liquidation locator returns whose
`thresholdHit` records the low threshold satisfies `accum ≥
LIQ_THRESHOLD_FRAC × sideTotal` and `dist ≤ atr × DIST_MULTIPLIER`; and
the locator returns `null` only when no level of the side's walk list
is simultaneously within reach and at an accumulated notional reaching
even the higher threshold `LIQ_MAX_LOOKUP_FRAC × sideTotal`. -/
theorem claim8_liquidation_locator (ladderAsc : List PriceLevel)
    (currentPrice : ℚ) (side : String) (sideTotal atr : ℚ) :
    (∀ z, findNearestLiquidationPriceSide ladderAsc currentPrice side sideTotal atr =
        some z →
      z.thresholdHit = sideTotal * LIQ_THRESHOLD_FRAC →
      z.accum ≥ sideTotal * LIQ_THRESHOLD_FRAC ∧ z.dist ≤ atr * DIST_MULTIPLIER) ∧
    (findNearestLiquidationPriceSide ladderAsc currentPrice side sideTotal atr =
        none →
      ∀ k, k < (liqCandidates ladderAsc currentPrice side).length →
        ¬(|currentPrice -
            ((liqCandidates ladderAsc currentPrice side).getD k ⟨0, 0⟩).price| ≤
              atr * DIST_MULTIPLIER ∧
          (((liqCandidates ladderAsc currentPrice side).take (k + 1)).map
            (·.usd)).sum ≥ sideTotal * LIQ_MAX_LOOKUP_FRAC)) := by
  constructor
  · intro z hz hth
    simp only [findNearestLiquidationPriceSide] at hz
    cases h1 : liqWalk (atr * DIST_MULTIPLIER) (sideTotal * LIQ_THRESHOLD_FRAC)
        currentPrice 0 (liqCandidates ladderAsc currentPrice side) with
    | some z' =>
        rw [h1] at hz
        rw [Option.some.injEq] at hz
        subst hz
        have := liqWalk_some _ _ _ h1
        exact ⟨this.1, this.2.1⟩
    | none =>
        rw [h1] at hz
        have hw := liqWalk_some _ _ _ hz
        have heq : sideTotal * LIQ_MAX_LOOKUP_FRAC = sideTotal * LIQ_THRESHOLD_FRAC := by
          rw [← hw.2.2, hth]
        refine ⟨?_, hw.2.1⟩
        rw [← heq]
        exact hw.1
  · intro hz k hk
    simp only [findNearestLiquidationPriceSide] at hz
    cases h1 : liqWalk (atr * DIST_MULTIPLIER) (sideTotal * LIQ_THRESHOLD_FRAC)
        currentPrice 0 (liqCandidates ladderAsc currentPrice side) with
    | some z' =>
        rw [h1] at hz
        exact absurd hz (by simp)
    | none =>
        rw [h1] at hz
        have := liqWalk_none _ 0 hz k hk
        intro hcontra
        apply this
        refine ⟨hcontra.1, ?_⟩
        rw [zero_add]
        exact hcontra.2

/-- Witness for claim C8: the locator applied to a one-level bid ladder
(level 90 holding 100 USD, price 100, side total 100, ATR 10) returns
the low-threshold zone, whose accumulated notional and distance then
satisfy the claimed bounds. -/
theorem claim8_liquidation_locator_witness :
    (⟨90, 100, 10, 10⟩ : LiqZone).accum ≥ 100 * LIQ_THRESHOLD_FRAC ∧
    (⟨90, 100, 10, 10⟩ : LiqZone).dist ≤ 10 * DIST_MULTIPLIER :=
  (claim8_liquidation_locator [⟨90, 100⟩] 100 "bid" 100 10).1 ⟨90, 100, 10, 10⟩
    (by norm_num [findNearestLiquidationPriceSide, liqCandidates, liqWalk,
      sortDescPrice, insertDescPrice, LIQ_THRESHOLD_FRAC, LIQ_MAX_LOOKUP_FRAC,
      DIST_MULTIPLIER, List.filter_cons, List.filter_nil, decide_eq_true_eq])
    (by norm_num [LIQ_THRESHOLD_FRAC])

/-- Counterexample to claim C6: with coverage 0 (target = 0) and one
cluster of notional 10, `extractPOI` returns one cluster even though
the strictly shorter empty prefix already has cumulative notional ≥
target — the loop always admits at least one cluster before checking,
so the returned prefix is not the shortest prefix meeting the target. -/
theorem claim6_counterexample :
    (extractPOI [⟨0, 1, 10, 1⟩] 0).poi.length = 1 ∧
    ((([⟨0, 1, 10, 1⟩] : List Cluster).take 0).map (·.usd)).sum ≥
      (extractPOI [⟨0, 1, 10, 1⟩] 0).target := by
  constructor
  · norm_num [extractPOI, poiLoop]
  · norm_num [extractPOI]

/-- Claim C6 as amended: `extractPOI` returns the shortest NONEMPTY
prefix of the cluster list whose cumulative notional reaches `coverage
× total`, or the entire list when no prefix reaches it; consequently
the returned cumulative notional is ≥ `coverage × total` whenever
`coverage × total ≤ total`, and (for nonnegative total) decreasing the
coverage never increases the number of clusters returned. -/
theorem claim6_poi_extraction (cs : List Cluster) (coverage : ℚ) :
    ((extractPOI cs coverage).poi = cs.take (extractPOI cs coverage).poi.length) ∧
    (∀ j, 0 < j → j < (extractPOI cs coverage).poi.length →
      ((cs.take j).map (·.usd)).sum < (extractPOI cs coverage).target) ∧
    (((cs.take (extractPOI cs coverage).poi.length).map (·.usd)).sum ≥
        (extractPOI cs coverage).target ∨
      (extractPOI cs coverage).poi.length = cs.length) ∧
    ((extractPOI cs coverage).target ≤ (extractPOI cs coverage).total →
      ((extractPOI cs coverage).poi.map (·.usd)).sum ≥
        (extractPOI cs coverage).target) ∧
    (∀ cov', cov' ≤ coverage → 0 ≤ (extractPOI cs coverage).total →
      (extractPOI cs cov').poi.length ≤ (extractPOI cs coverage).poi.length) := by
  obtain ⟨k, hk, heq, hlt, hor⟩ :=
    poiLoop_spec ((cs.map (·.usd)).sum * coverage) cs 0
  have hlen : (extractPOI cs coverage).poi.length = k := by
    simp only [extractPOI]
    rw [heq, List.length_take]
    exact min_eq_left hk
  have hpoi : (extractPOI cs coverage).poi = cs.take k := by
    simp only [extractPOI]
    exact heq
  have htgt : (extractPOI cs coverage).target = (cs.map (·.usd)).sum * coverage := rfl
  have htot : (extractPOI cs coverage).total = (cs.map (·.usd)).sum := rfl
  refine ⟨?_, ?_, ?_, ?_, ?_⟩
  · rw [hpoi, List.length_take, min_eq_left hk]
  · intro j hj hjk
    rw [hlen] at hjk
    rw [htgt]
    have := hlt j hj hjk
    linarith
  · rw [hlen, htgt]
    rcases hor with h | h
    · left
      linarith
    · right
      exact h
  · intro hle
    rw [htgt, htot] at hle
    rw [hpoi, htgt]
    rcases hor with h | h
    · calc ((cs.take k).map (·.usd)).sum
          = 0 + ((cs.take k).map (·.usd)).sum := by ring
        _ ≥ (cs.map (·.usd)).sum * coverage := h
    · rw [h, List.take_length]
      exact hle
  · intro cov' hcov htot0
    rw [htot] at htot0
    have hmul : (cs.map (·.usd)).sum * cov' ≤ (cs.map (·.usd)).sum * coverage :=
      mul_le_mul_of_nonneg_left hcov htot0
    have := poiLoop_mono hmul cs 0
    simpa only [extractPOI] using this

/-- Witness for claim C6 (amended): two clusters with notionals 10 and
5 at coverage 9/10 — the target 13.5 does not exceed the total 15, so
the cumulative notional of the returned POI set reaches the target. -/
theorem claim6_poi_extraction_witness :
    ((extractPOI [⟨0, 1, 10, 1⟩, ⟨1, 2, 5, 1⟩] COVERAGE).poi.map (·.usd)).sum ≥
      (extractPOI [⟨0, 1, 10, 1⟩, ⟨1, 2, 5, 1⟩] COVERAGE).target :=
  (claim6_poi_extraction [⟨0, 1, 10, 1⟩, ⟨1, 2, 5, 1⟩] COVERAGE).2.2.2.1
    (by norm_num [extractPOI, COVERAGE])

/-- Counterexample to claim C7: a bid/ask cluster list that is nonempty
before filtering but empty after it (its only cluster lies 100.5 away
from the price while the reach is `atr × 6 = 6`) does NOT abort the
tick: the stage returns a successful result with an empty POI set and
zero totals instead of an error. -/
theorem claim7_counterexample :
    applyModerateFilter [⟨200, 201, 1000, 1⟩] 1000 1 100 = [] ∧
    clusterStage [⟨200, 201, 1000, 1⟩] [⟨200, 201, 1000, 1⟩] 1 100 =
      Except.ok (⟨0, 0, []⟩, ⟨0, 0, []⟩) := by
  constructor
  · norm_num [applyModerateFilter, MIN_STRENGTH, DIST_MULTIPLIER,
      List.filter_cons, List.filter_nil, decide_eq_true_eq, abs_le]
  · norm_num [clusterStage, applyModerateFilter, MIN_STRENGTH, DIST_MULTIPLIER,
      extractPOI, poiLoop, COVERAGE, List.filter_cons, List.filter_nil,
      Bool.and_eq_true, decide_eq_true_eq, abs_le]

/-- Claim C7 as amended: the hard failure is checked BEFORE the
moderate filter — the cluster stage surfaces an error exactly when the
raw bid or ask cluster list is empty, and succeeds (continuing with
whatever the filter leaves, possibly an empty POI set) whenever both
raw lists are nonempty. -/
theorem claim7_cluster_emptiness (bidClusters askClusters : List Cluster)
    (atr price : ℚ) :
    ((∃ msg, clusterStage bidClusters askClusters atr price = Except.error msg) ↔
      (bidClusters = [] ∨ askClusters = [])) ∧
    (bidClusters ≠ [] → askClusters ≠ [] →
      ∃ pb pa, clusterStage bidClusters askClusters atr price = Except.ok (pb, pa)) := by
  rcases bidClusters with _ | ⟨b₀, bs⟩
  · exact ⟨⟨fun _ => Or.inl rfl,
      fun _ => ⟨"No cluster data available.", rfl⟩⟩,
      fun hb _ => absurd rfl hb⟩
  · rcases askClusters with _ | ⟨a₀, as'⟩
    · exact ⟨⟨fun _ => Or.inr rfl,
        fun _ => ⟨"No cluster data available.", rfl⟩⟩,
        fun _ ha => absurd rfl ha⟩
    · constructor
      · constructor
        · rintro ⟨msg, hmsg⟩
          exact absurd hmsg (by simp [clusterStage])
        · rintro (h | h) <;> simp at h
      · exact fun _ _ => ⟨_, _, rfl⟩

/-- Witness for claim C7 (amended): an empty raw bid cluster list makes
the stage surface the hard-failure error. -/
theorem claim7_cluster_emptiness_witness :
    ∃ msg, clusterStage [] [⟨0, 1, 10, 1⟩] 1 100 = Except.error msg :=
  (claim7_cluster_emptiness [] [⟨0, 1, 10, 1⟩] 1 100).1.mpr (Or.inl rfl)

/-- Counterexample to claim C9: the aggregator checks only that the
size is positive — an entry with a negative (or zero) price is NOT
dropped: a single raw level with price -5 and size 2 produces the
output level `{price: -5, usd: -10}` rather than the empty list the
claim requires. -/
theorem claim9_counterexample :
    aggregatePriceUsd [(some (-5), some 2)] = [⟨-5, -10⟩] ∧
    aggregatePriceUsd [(some (-5), some 2)] ≠ [] ∧ ¬(0 : ℚ) < -5 := by
  refine ⟨?_, ?_, by norm_num⟩
  · norm_num [aggregatePriceUsd, aggStep, upsertUsd]
  · norm_num [aggregatePriceUsd, aggStep, upsertUsd]

/-- Claim C9 as amended: entries whose price or size is non-finite, or
whose size is non-positive, are dropped (price positivity is NOT
checked); the output has exactly one `PriceLevel` per distinct retained
price, and both the per-price total and each output level's `usd`
field equal the sum of `price × size` over the retained entries at
that price. -/
theorem claim9_aggregation (levels : List (Option ℚ × Option ℚ)) :
    ((aggregatePriceUsd levels).map (·.price)).Nodup ∧
    (∀ q : ℚ, q ∈ (aggregatePriceUsd levels).map (·.price) ↔
      q ∈ (retainedEntries levels).map (·.1)) ∧
    (∀ q : ℚ, usdAt (aggregatePriceUsd levels) q = notionalAt levels q) ∧
    (∀ pl ∈ aggregatePriceUsd levels, pl.usd = notionalAt levels pl.price) := by
  have hnodup : ((aggregatePriceUsd levels).map (·.price)).Nodup :=
    agg_fold_nodup levels [] (by simp)
  have husd : ∀ q : ℚ, usdAt (aggregatePriceUsd levels) q = notionalAt levels q := by
    intro q
    have := agg_fold_usdAt levels [] q
    rwa [usdAt_nil, zero_add] at this
  refine ⟨hnodup, ?_, husd, ?_⟩
  · intro q
    have := agg_fold_mem levels [] q
    simpa using this
  · intro pl hpl
    rw [← husd pl.price]
    exact (usdAt_of_mem_nodup _ hnodup pl hpl).symm

/-- Witness for claim C9 (amended): two raw levels at the same price 2
(sizes 3 and 1) merge into the single level `{price: 2, usd: 8}`, whose
notional equals the sum over the retained entries at price 2. -/
theorem claim9_aggregation_witness :
    (⟨2, 8⟩ : PriceLevel).usd = notionalAt [(some 2, some 3), (some 2, some 1)] 2 :=
  (claim9_aggregation [(some 2, some 3), (some 2, some 1)]).2.2.2 ⟨2, 8⟩
    (by norm_num [aggregatePriceUsd, aggStep, upsertUsd])

/-- Claim C10: the conviction-and-signal computation is pure with
respect to the module-level smoothing state: threading the state
through the call leaves it unchanged, and the result does not depend on
the incoming state (so identical arguments give identical results
regardless of prior calls). -/
theorem claim10_state_frame :
    ∀ (log10 : ℚ → ℚ) (inp : ConvInput) (st st' : EngineState),
      (computeConvictionAndSignalSt log10 inp st).2 = st ∧
      (computeConvictionAndSignalSt log10 inp st).1 =
        (computeConvictionAndSignalSt log10 inp st').1 :=
  fun _ _ _ _ => ⟨rfl, rfl⟩

end CryptoBuddy
